import Mathlib

/-
Formal model of `src/main.rs` of the repository `rust_book_chapter_16`.

The program is a sequence of three concurrency demonstrations:
  * `using_threads_to_run_code_simultaneously` (lines 20-55): two spawned
    threads each print a counted loop `for i in 0..10` with a 10 ms sleep
    after each print, the parent joins both with `.expect(...)`; a third
    thread prints a moved string and is joined.
  * `using_message_passing_to_transfer_data_between_threads` (lines 57-101):
    an mpsc channel `(tx, rx)`, `tx1 = tx.clone()`; one spawned thread sends
    "hello" on `tx`, a second sends "channels", "are", "fun" on `tx1`;
    the parent runs `for val in rx { println!(...) }`; the sender threads'
    join handles are discarded (never joined).
  * `shared_state_concurrency` (lines 103-147): a `Mutex::new(5)` is locked
    in an inner block and incremented; then an `Arc<Mutex<String>>` starting
    at "1" is shared with 10 spawned workers, worker `i` locks it and pushes
    the character `('a' as u8 + i) as char`; the parent joins all workers
    and prints the final string under a last lock.

Shared-memory concurrency is modelled by small-step transition relations:
a scheduler choice picks which enabled thread acts next, and the theorems
quantify over all reachable states, i.e. over all interleavings.
-/

/-! ### Thread loop bodies (`using_threads_to_run_code_simultaneously`, lines 25-37) -/

/-- One observable action of a spawned thread body: a `println!` of a labelled
loop index, or a `thread::sleep(Duration::from_millis(ms))`. -/
inductive ThreadEvent where
  | print (label : String) (i : Nat)
  | sleepMs (ms : Nat)
deriving DecidableEq, Repr

/-- The event trace of `for i in 0..10 { println!("{label}{i}"); sleep(10ms) }`,
the body of each of the first two spawned closures (lines 26-29 and 33-36). -/
def countedLoop (label : String) : List ThreadEvent :=
  (List.range 10).flatMap (fun i => [ThreadEvent.print label i, ThreadEvent.sleepMs 10])

/-- Events of the first spawned thread (lines 25-30). -/
def firstThreadEvents : List ThreadEvent := countedLoop "First thread i: "

/-- Events of the second spawned thread (lines 32-37). -/
def secondThreadEvents : List ThreadEvent := countedLoop "Second thread i: "

/-- The loop indices printed by a thread body, in print order. -/
def printedIndices (es : List ThreadEvent) : List Nat :=
  es.filterMap (fun e => match e with
    | ThreadEvent.print _ i => some i
    | ThreadEvent.sleepMs _ => none)

/-- The console lines printed by a thread body, in print order. -/
def printedLines (es : List ThreadEvent) : List String :=
  es.filterMap (fun e => match e with
    | ThreadEvent.print label i => some (label ++ toString i)
    | ThreadEvent.sleepMs _ => none)

/-- `true` iff every `print` event in the trace is immediately followed by a
`sleepMs 10` event (the fixed 10-millisecond sleep of lines 28 and 35). -/
def sleepAfterEachPrint : List ThreadEvent → Bool
  | [] => true
  | [ThreadEvent.print _ _] => false
  | ThreadEvent.print _ _ :: e :: rest =>
      decide (e = ThreadEvent.sleepMs 10) && sleepAfterEachPrint (e :: rest)
  | ThreadEvent.sleepMs _ :: rest => sleepAfterEachPrint rest

/-! ### Interleavings

The OS scheduler merges the output lines of independently spawned threads into
one console stream; any interleaving that preserves each thread's own order is
a possible execution. -/

/-- `Interleave as bs l`: `l` is an interleaving of `as` and `bs` keeping the
relative order of each. -/
inductive Interleave {α : Type _} : List α → List α → List α → Prop
  | nil : Interleave [] [] []
  | left {a : α} {as bs l : List α} :
      Interleave as bs l → Interleave (a :: as) bs (a :: l)
  | right {b : α} {as bs l : List α} :
      Interleave as bs l → Interleave as (b :: bs) (b :: l)

/-! ### The mpsc channel (`using_message_passing_to_transfer_data_between_threads`) -/

/-- Messages sent on `tx` by the first sender thread (lines 70-75). -/
def msgsA : List String := ["hello"]

/-- Messages sent on `tx1` by the second sender thread (lines 77-88),
in their send order. -/
def msgsB : List String := ["channels", "are", "fun"]

/-- State of the channel demonstration:
`pa`/`pb` are the messages the two sender threads have not yet sent (a sender
thread finishes — and its transmit handle is dropped — exactly when its list is
empty); `queue` is the channel's FIFO buffer; `received` the values the
receive loop `for val in rx` has printed so far; `done` whether that loop has
exited. -/
structure ChanState where
  pa : List String
  pb : List String
  queue : List String
  received : List String
  done : Bool
deriving DecidableEq, Repr

/-- Initial state: both sender threads spawned, nothing sent, loop running. -/
def chanInit : ChanState := ⟨msgsA, msgsB, [], [], false⟩

/-- One scheduler step of the channel demonstration.
`sendA`/`sendB`: a sender thread whose next `send` is `m` enqueues it.
`recv`: the receive loop dequeues the oldest buffered message and prints it.
`exit`: `recv()` inside `for val in rx` returns `Err` — possible only when the
buffer is empty and every transmit handle has been dropped — so the loop ends.
A blocked receiver (empty buffer, live sender) has no step: `recv` requires a
nonempty queue and `exit` requires both senders finished. -/
inductive ChanStep : ChanState → ChanState → Prop
  | sendA (m : String) (pa pb q r : List String) :
      ChanStep ⟨m :: pa, pb, q, r, false⟩ ⟨pa, pb, q ++ [m], r, false⟩
  | sendB (m : String) (pa pb q r : List String) :
      ChanStep ⟨pa, m :: pb, q, r, false⟩ ⟨pa, pb, q ++ [m], r, false⟩
  | recv (m : String) (pa pb q r : List String) :
      ChanStep ⟨pa, pb, m :: q, r, false⟩ ⟨pa, pb, q, r ++ [m], false⟩
  | exit (r : List String) :
      ChanStep ⟨[], [], [], r, false⟩ ⟨[], [], [], r, true⟩

/-- States reachable from `chanInit` under some interleaving. -/
abbrev ChanReachable (s : ChanState) : Prop :=
  Relation.ReflTransGen ChanStep chanInit s

/-- Decreasing measure: each step strictly decreases it, so every execution of
the channel demonstration is finite. -/
def chanMeasure (s : ChanState) : Nat :=
  2 * (s.pa.length + s.pb.length) + s.queue.length + (if s.done then 0 else 1)

/-! ### Shared string behind `Arc<Mutex<String>>` (`shared_state_concurrency`, lines 123-141) -/

/-- The character pushed by worker `i`: `('a' as u8 + i) as char` (line 131). -/
def workerChar (i : Nat) : Char := Char.ofNat ('a'.toNat + i)

/-- State of the worker pool: `pending` the indices of workers that have not
yet run their critical section, `str` the contents of the shared `String`.
The mutex makes each worker's lock/push/unlock atomic, so a state needs no
partially-executed worker. -/
structure PoolState where
  pending : List Nat
  str : List Char
deriving DecidableEq, Repr

/-- Initial state: `String::from("1")` shared with workers `0..10` (lines 123-133). -/
def poolInit : PoolState := ⟨List.range 10, ['1']⟩

/-- One step: some still-pending worker `i` acquires the lock, pushes its
character at the end of the string, and releases the lock (lines 129-132).
The scheduler (the order in which workers win the lock) is arbitrary. -/
inductive PoolStep : PoolState → PoolState → Prop
  | lockPush (i : Nat) (pending : List Nat) (str : List Char) :
      i ∈ pending →
      PoolStep ⟨pending, str⟩ ⟨pending.erase i, str ++ [workerChar i]⟩

/-- Pool states reachable from `poolInit` under some lock-acquisition order. -/
abbrev PoolReachable (s : PoolState) : Prop :=
  Relation.ReflTransGen PoolStep poolInit s

/-! ### Integer mutex (`shared_state_concurrency`, lines 108-120) -/

/-- The value `Mutex::new(5)` starts with (line 108). -/
def mInitVal : Nat := 5

/-- The updates applied to the integer mutex's value, in program order: the
single `*value += 1` of the inner block (line 117) is the only one. -/
def mUpdates : List (Nat → Nat) := [fun v => v + 1]

/-- The value held by the integer mutex when `println!("m: {:?}", m)` runs
(line 120). -/
def mFinalVal : Nat := mUpdates.foldl (fun v f => f v) mInitVal

/-! ### Lock-operation traces (`shared_state_concurrency`) -/

/-- Mutex identifiers: `0` is the integer mutex `m`, `1` the shared string. -/
def mIntId : Nat := 0

/-- Mutex identifier of the `Arc<Mutex<String>>` value `shared`. -/
def sharedId : Nat := 1

/-- One lock-relevant action of a single thread: acquire a mutex's lock
(`.lock().unwrap()`), release it (the `MutexGuard` goes out of scope), or the
`println!("m: {:?}", m)` of line 120. -/
inductive LockEvent where
  | acq (m : Nat)
  | rel (m : Nat)
  | printM
deriving DecidableEq, Repr

/-- Lock operations of the main thread of `shared_state_concurrency`, in
program order: the inner block acquires `m` (line 116) and releases it at the
block's closing brace (line 118); then `m` is printed (line 120); then the
final `shared.lock().unwrap()` (line 140) is acquired and released when
`final_state` is dropped at the end of the function. -/
def mainLockTrace : List LockEvent :=
  [LockEvent.acq mIntId, LockEvent.rel mIntId, LockEvent.printM,
   LockEvent.acq sharedId, LockEvent.rel sharedId]

/-- Lock operations of each worker thread (lines 130-132): acquire `shared`,
push, release at the closure's end. The trace is the same for every worker. -/
def workerLockTrace : List LockEvent :=
  [LockEvent.acq sharedId, LockEvent.rel sharedId]

/-- Checks a single thread's lock trace against the scoped-guard discipline:
an acquire only of a lock the thread does not already hold (otherwise the
thread would deadlock on itself), a release only of a held lock, and every
lock released by the end of the trace. `held` is the set of locks currently
held by the thread. -/
def lockOk (held : List Nat) : List LockEvent → Bool
  | [] => held.isEmpty
  | LockEvent.acq m :: rest => !held.contains m && lockOk (m :: held) rest
  | LockEvent.rel m :: rest => held.contains m && lockOk (held.erase m) rest
  | LockEvent.printM :: rest => lockOk held rest

/-- The locks held by a thread after the first `k` events of its trace. -/
def heldAfter (t : List LockEvent) (k : Nat) : List Nat :=
  (t.take k).foldl (fun held e =>
    match e with
    | LockEvent.acq m => m :: held
    | LockEvent.rel m => held.erase m
    | LockEvent.printM => held) []

/-! ### Spawn sites and join handling -/

/-- A `thread::spawn` site of the program: the enclosing function, and what
the parent does with the `JoinHandle` — `some msg` when the parent calls
`.join().expect(msg)` on it, `none` when the handle is discarded and the
thread is never joined. -/
structure SpawnSite where
  fn : String
  joinExpectMsg : Option String
deriving DecidableEq, Repr

/-- The spawn site of the first sender thread (lines 70-75): its
`JoinHandle` is discarded, the thread is never joined. -/
def txSenderSite : SpawnSite :=
  ⟨"using_message_passing_to_transfer_data_between_threads", none⟩

/-- The spawn site of the second sender thread (lines 77-88), also never
joined. -/
def tx1SenderSite : SpawnSite :=
  ⟨"using_message_passing_to_transfer_data_between_threads", none⟩

/-- Every `thread::spawn` site in the program, in source order: the two
counted-loop threads and the moved-string thread (joined with fixed `expect`
messages, lines 39-40 and 54), the two sender threads (handles discarded,
lines 70 and 77), and the ten workers (each joined at line 137 with the fixed
message "Failed at threads"). -/
def spawnSites : List SpawnSite :=
  [⟨"using_threads_to_run_code_simultaneously", some "First thread crashed"⟩,
   ⟨"using_threads_to_run_code_simultaneously", some "Second thread crashed"⟩,
   ⟨"using_threads_to_run_code_simultaneously", some "move_handle crashed"⟩,
   txSenderSite,
   tx1SenderSite] ++
  (List.range 10).map (fun _ => ⟨"shared_state_concurrency", some "Failed at threads"⟩)

/-- Effect on the parent when a spawned child thread panics. -/
inductive ParentOutcome where
  | abortProcess (msg : String)
  | unaffected
deriving DecidableEq, Repr

/-- What the parent observes if the child spawned at `s` panics: `.join()`
returns `Err`, so a joined handle's `.expect(msg)` panics in the parent (the
main thread), aborting the whole process with the fixed message `msg`; a
discarded handle is never joined, so the parent is unaffected. -/
def onChildPanic (s : SpawnSite) : ParentOutcome :=
  match s.joinExpectMsg with
  | some msg => ParentOutcome.abortProcess msg
  | none => ParentOutcome.unaffected

/-! ### Channel send sites -/

/-- A `tx.send(...)` call site: the enclosing function and the fixed message
given to `.expect(...)` around it. -/
structure SendSite where
  fn : String
  expectMsg : String
deriving DecidableEq, Repr

/-- The two send sites of the program: `tx.send(hello).expect("Failed to send")`
(line 73) and `tx1.send(val).expect("Failed to send on tx1")` (line 86). -/
def sendSites : List SendSite :=
  [⟨"using_message_passing_to_transfer_data_between_threads", "Failed to send"⟩,
   ⟨"using_message_passing_to_transfer_data_between_threads", "Failed to send on tx1"⟩]

/-- Outcome of one `send(...).expect(msg)` in the sending thread: if the
receiver is still alive the value is delivered; if the receiver has been
dropped, `send` returns `Err` and `.expect` panics the sending thread with
the fixed message. No branch recovers or retries. -/
inductive SendOutcome where
  | delivered
  | threadPanic (msg : String)
deriving DecidableEq, Repr

/-- Semantics of a send site given whether the receiver is still alive. -/
def sendResult (receiverAlive : Bool) (s : SendSite) : SendOutcome :=
  if receiverAlive then SendOutcome.delivered else SendOutcome.threadPanic s.expectMsg

/-! ### Invariants used in the proofs -/

/-- Invariant of the channel demonstration: what was already handed over
(printed or still buffered) is an order-preserving interleaving of the
already-sent prefixes of the two senders' message lists, and once the receive
loop has exited, both senders are finished and the buffer is drained. -/
def ChanInv (s : ChanState) : Prop :=
  ∃ da db : List String, da ++ s.pa = msgsA ∧ db ++ s.pb = msgsB ∧
    Interleave da db (s.received ++ s.queue) ∧
    (s.done = true → s.pa = [] ∧ s.pb = [] ∧ s.queue = [])

/-- Invariant of the worker pool: the string is the initial `"1"` followed by
the characters of the workers that have run, in their lock-acquisition order
`ord`, and `ord` together with the still-pending workers is a permutation of
`0..10`. -/
def PoolInv (s : PoolState) : Prop :=
  ∃ ord : List Nat, (ord ++ s.pending).Perm (List.range 10) ∧
    s.str = '1' :: ord.map workerChar

/-! ## Helper lemmas on interleavings -/

theorem Interleave.nil_left {α : Type _} (bs : List α) : Interleave [] bs bs := by
  induction bs with
  | nil => exact Interleave.nil
  | cons b bs ih => exact Interleave.right ih

theorem Interleave.nil_right {α : Type _} (as : List α) : Interleave as [] as := by
  induction as with
  | nil => exact Interleave.nil
  | cons a as ih => exact Interleave.left ih

theorem Interleave.append_left_all {α : Type _} {as bs l : List α} (cs : List α)
    (h : Interleave as bs l) : Interleave (cs ++ as) bs (cs ++ l) := by
  induction cs with
  | nil => simpa using h
  | cons c cs ih => exact Interleave.left ih

theorem Interleave.append_right_all {α : Type _} {as bs l : List α} (cs : List α)
    (h : Interleave as bs l) : Interleave as (cs ++ bs) (cs ++ l) := by
  induction cs with
  | nil => simpa using h
  | cons c cs ih => exact Interleave.right ih

theorem Interleave.push_left {α : Type _} {as bs l : List α} (m : α)
    (h : Interleave as bs l) : Interleave (as ++ [m]) bs (l ++ [m]) := by
  induction h with
  | nil => simpa using Interleave.nil_right [m]
  | left _ ih => exact Interleave.left ih
  | right _ ih => exact Interleave.right ih

theorem Interleave.push_right {α : Type _} {as bs l : List α} (m : α)
    (h : Interleave as bs l) : Interleave as (bs ++ [m]) (l ++ [m]) := by
  induction h with
  | nil => simpa using Interleave.nil_left [m]
  | left _ ih => exact Interleave.left ih
  | right _ ih => exact Interleave.right ih

theorem Interleave.perm {α : Type _} {as bs l : List α} (h : Interleave as bs l) :
    l.Perm (as ++ bs) := by
  induction h with
  | nil => simp
  | left _ ih => exact List.Perm.cons _ ih
  | right _ ih => exact List.Perm.trans (List.Perm.cons _ ih) List.perm_middle.symm

theorem Interleave.sublist_right {α : Type _} {as bs l : List α} (h : Interleave as bs l) :
    bs.Sublist l := by
  induction h with
  | nil => exact List.Sublist.refl _
  | left _ ih => exact ih.cons _
  | right _ ih => exact ih.cons₂ _

/-! ## Channel invariant -/

theorem chanInv_step {s t : ChanState} (h : ChanStep s t) (hs : ChanInv s) : ChanInv t := by
  obtain ⟨da, db, hA, hB, hI, _⟩ := hs
  cases h with
  | sendA m pa pb q r =>
      refine ⟨da ++ [m], db, ?_, hB, ?_, by simp⟩
      · simpa using hA
      · simpa using Interleave.push_left m hI
  | sendB m pa pb q r =>
      refine ⟨da, db ++ [m], hA, ?_, ?_, by simp⟩
      · simpa using hB
      · simpa using Interleave.push_right m hI
  | recv m pa pb q r =>
      exact ⟨da, db, hA, hB, by simpa using hI, by simp⟩
  | exit r =>
      exact ⟨da, db, hA, hB, hI, fun _ => ⟨rfl, rfl, rfl⟩⟩

theorem chanInv_reachable {s : ChanState} (h : ChanReachable s) : ChanInv s := by
  induction h with
  | refl => exact ⟨[], [], rfl, rfl, Interleave.nil, by simp [chanInit]⟩
  | tail _ hstep ih => exact chanInv_step hstep ih

/-- One concrete complete execution of the channel demonstration, ending with
all four messages received and the loop exited. -/
theorem chanRun_reachable :
    ChanReachable ⟨[], [], [], ["hello", "channels", "are", "fun"], true⟩ := by
  refine Relation.ReflTransGen.head (ChanStep.sendA "hello" [] msgsB [] []) ?_
  refine Relation.ReflTransGen.head (ChanStep.recv "hello" [] msgsB [] []) ?_
  refine Relation.ReflTransGen.head (ChanStep.sendB "channels" [] ["are", "fun"] [] ["hello"]) ?_
  refine Relation.ReflTransGen.head (ChanStep.recv "channels" [] ["are", "fun"] [] ["hello"]) ?_
  refine Relation.ReflTransGen.head (ChanStep.sendB "are" [] ["fun"] [] ["hello", "channels"]) ?_
  refine Relation.ReflTransGen.head (ChanStep.recv "are" [] ["fun"] [] ["hello", "channels"]) ?_
  refine Relation.ReflTransGen.head
    (ChanStep.sendB "fun" [] [] [] ["hello", "channels", "are"]) ?_
  refine Relation.ReflTransGen.head (ChanStep.recv "fun" [] [] [] ["hello", "channels", "are"]) ?_
  exact Relation.ReflTransGen.single (ChanStep.exit ["hello", "channels", "are", "fun"])

/-! ## Pool invariant -/

theorem poolInv_step {s t : PoolState} (h : PoolStep s t) (hs : PoolInv s) : PoolInv t := by
  obtain ⟨ord, hperm, hstr⟩ := hs
  cases h with
  | lockPush i pending str hi =>
      refine ⟨ord ++ [i], ?_, ?_⟩
      · have h1 : pending.Perm (i :: pending.erase i) := List.perm_cons_erase hi
        have h2 : ((ord ++ [i]) ++ pending.erase i).Perm (ord ++ pending) := by
          have he : (ord ++ [i]) ++ pending.erase i = ord ++ (i :: pending.erase i) := by simp
          rw [he]
          exact List.Perm.append_left ord h1.symm
        exact h2.trans hperm
      · have hstr' : str = '1' :: ord.map workerChar := hstr
        simp [hstr']

theorem poolInv_reachable {s : PoolState} (h : PoolReachable s) : PoolInv s := by
  induction h with
  | refl => exact ⟨[], by simp [poolInit], rfl⟩
  | tail _ hstep ih => exact poolInv_step hstep ih

/-- Packaged form of `PoolStep.lockPush` taking the successor components as
equations, convenient for building concrete executions. -/
theorem PoolStep.of_eq (i : Nat) (p p' : List Nat) (s s' : List Char)
    (hi : i ∈ p) (hp : p' = p.erase i) (hs : s' = s ++ [workerChar i]) :
    PoolStep ⟨p, s⟩ ⟨p', s'⟩ := by
  subst hp
  subst hs
  exact PoolStep.lockPush i p s hi

/-- One concrete complete execution of the worker pool, running the workers
in index order. -/
theorem poolRun_reachable :
    PoolReachable ⟨[], ['1', 'a', 'b', 'c', 'd', 'e', 'f', 'g', 'h', 'i', 'j']⟩ := by
  refine Relation.ReflTransGen.head (PoolStep.of_eq 0 (List.range 10) [1, 2, 3, 4, 5, 6, 7, 8, 9]
    ['1'] ['1', 'a'] (by decide) (by decide) (by decide)) ?_
  refine Relation.ReflTransGen.head (PoolStep.of_eq 1 [1, 2, 3, 4, 5, 6, 7, 8, 9]
    [2, 3, 4, 5, 6, 7, 8, 9] ['1', 'a'] ['1', 'a', 'b'] (by decide) (by decide) (by decide)) ?_
  refine Relation.ReflTransGen.head (PoolStep.of_eq 2 [2, 3, 4, 5, 6, 7, 8, 9]
    [3, 4, 5, 6, 7, 8, 9] ['1', 'a', 'b'] ['1', 'a', 'b', 'c']
    (by decide) (by decide) (by decide)) ?_
  refine Relation.ReflTransGen.head (PoolStep.of_eq 3 [3, 4, 5, 6, 7, 8, 9]
    [4, 5, 6, 7, 8, 9] ['1', 'a', 'b', 'c'] ['1', 'a', 'b', 'c', 'd']
    (by decide) (by decide) (by decide)) ?_
  refine Relation.ReflTransGen.head (PoolStep.of_eq 4 [4, 5, 6, 7, 8, 9]
    [5, 6, 7, 8, 9] ['1', 'a', 'b', 'c', 'd'] ['1', 'a', 'b', 'c', 'd', 'e']
    (by decide) (by decide) (by decide)) ?_
  refine Relation.ReflTransGen.head (PoolStep.of_eq 5 [5, 6, 7, 8, 9]
    [6, 7, 8, 9] ['1', 'a', 'b', 'c', 'd', 'e'] ['1', 'a', 'b', 'c', 'd', 'e', 'f']
    (by decide) (by decide) (by decide)) ?_
  refine Relation.ReflTransGen.head (PoolStep.of_eq 6 [6, 7, 8, 9]
    [7, 8, 9] ['1', 'a', 'b', 'c', 'd', 'e', 'f'] ['1', 'a', 'b', 'c', 'd', 'e', 'f', 'g']
    (by decide) (by decide) (by decide)) ?_
  refine Relation.ReflTransGen.head (PoolStep.of_eq 7 [7, 8, 9]
    [8, 9] ['1', 'a', 'b', 'c', 'd', 'e', 'f', 'g'] ['1', 'a', 'b', 'c', 'd', 'e', 'f', 'g', 'h']
    (by decide) (by decide) (by decide)) ?_
  refine Relation.ReflTransGen.head (PoolStep.of_eq 8 [8, 9]
    [9] ['1', 'a', 'b', 'c', 'd', 'e', 'f', 'g', 'h']
    ['1', 'a', 'b', 'c', 'd', 'e', 'f', 'g', 'h', 'i']
    (by decide) (by decide) (by decide)) ?_
  exact Relation.ReflTransGen.single (PoolStep.of_eq 9 [9] []
    ['1', 'a', 'b', 'c', 'd', 'e', 'f', 'g', 'h', 'i']
    ['1', 'a', 'b', 'c', 'd', 'e', 'f', 'g', 'h', 'i', 'j']
    (by decide) (by decide) (by decide))

/-! ## Claim theorems -/

/-- C1: In `shared_state_concurrency`, after all 10 worker threads spawned
over the `Arc<Mutex<String>>` have been joined (every worker has run, so none
is pending), the final shared string contains each worker's contribution
exactly once: for every `i` in `0..10`, the character `('a' as u8 + i) as
char` occurs exactly once in the final string, whatever order the workers
acquired the lock in. -/
theorem each_worker_contribution_exactly_once :
    ∀ s : PoolState, PoolReachable s → s.pending = [] →
      ∀ i, i < 10 → s.str.count (workerChar i) = 1 := by
  intro s hr hp i hi
  obtain ⟨ord, hperm, hstr⟩ := poolInv_reachable hr
  rw [hp, List.append_nil] at hperm
  have hmap : s.str.Perm ('1' :: (List.range 10).map workerChar) := by
    rw [hstr]
    exact List.Perm.cons _ (hperm.map workerChar)
  rw [List.Perm.count_eq hmap]
  have hc : ∀ j, j < 10 →
      List.count (workerChar j) ('1' :: (List.range 10).map workerChar) = 1 := by decide
  exact hc i hi

/-- Witness for `each_worker_contribution_exactly_once`: the complete
execution running the workers in index order, at worker `3`. -/
theorem each_worker_contribution_exactly_once_w :
    List.count (workerChar 3) ['1', 'a', 'b', 'c', 'd', 'e', 'f', 'g', 'h', 'i', 'j'] = 1 :=
  each_worker_contribution_exactly_once _ poolRun_reachable rfl 3 (by decide)

/-- C2: In `using_message_passing_to_transfer_data_between_threads`, the
receive loop `for val in rx` terminates, and only once every transmit handle
has been dropped. Formally: every step strictly decreases `chanMeasure`, so
every execution is finite; every state where the loop has not exited has an
enabled step, so a maximal execution ends with the loop exited; the `exit`
transition fires only from states where both senders have finished (their
handles are dropped); and while the buffer is empty but a sender is still
live, no step changes `received` or `done` — the loop blocks. -/
theorem receive_loop_terminates_after_handles_dropped :
    (∀ s t : ChanState, ChanStep s t → chanMeasure t < chanMeasure s) ∧
    (∀ s : ChanState, s.done = false → ∃ t, ChanStep s t) ∧
    (∀ s t : ChanState, ChanStep s t → t.done = true → s.pa = [] ∧ s.pb = []) ∧
    (∀ s t : ChanState, ChanStep s t → s.queue = [] → (s.pa ≠ [] ∨ s.pb ≠ []) →
      t.received = s.received ∧ t.done = s.done) := by
  refine ⟨?_, ?_, ?_, ?_⟩
  · intro s t h
    cases h <;> simp [chanMeasure] <;> omega
  · intro s h
    obtain ⟨pa, pb, q, r, d⟩ := s
    have h' : d = false := h
    subst h'
    match q, pa, pb with
    | m :: q, pa, pb => exact ⟨_, ChanStep.recv m pa pb q r⟩
    | [], m :: pa, pb => exact ⟨_, ChanStep.sendA m pa pb [] r⟩
    | [], [], m :: pb => exact ⟨_, ChanStep.sendB m [] pb [] r⟩
    | [], [], [] => exact ⟨_, ChanStep.exit r⟩
  · intro s t h hd
    cases h with
    | sendA m pa pb q r => exact Bool.noConfusion hd
    | sendB m pa pb q r => exact Bool.noConfusion hd
    | recv m pa pb q r => exact Bool.noConfusion hd
    | exit r => exact ⟨rfl, rfl⟩
  · intro s t h hq hlive
    cases h with
    | sendA m pa pb q r => exact ⟨rfl, rfl⟩
    | sendB m pa pb q r => exact ⟨rfl, rfl⟩
    | recv m pa pb q r => exact List.noConfusion hq
    | exit r => rcases hlive with h1 | h1 <;> exact absurd rfl h1

/-- Witness for `receive_loop_terminates_after_handles_dropped`: a concrete
step decreases the measure, and the initial state has an enabled step. -/
theorem receive_loop_terminates_after_handles_dropped_w :
    chanMeasure ⟨[], ["are", "fun"], ["channels"], ["hello"], false⟩ <
      chanMeasure ⟨[], ["channels", "are", "fun"], [], ["hello"], false⟩ ∧
    (∃ t, ChanStep chanInit t) :=
  ⟨receive_loop_terminates_after_handles_dropped.1 _ _
      (ChanStep.sendB "channels" [] ["are", "fun"] [] ["hello"]),
   receive_loop_terminates_after_handles_dropped.2.1 chanInit rfl⟩

/-- C3 counterexample: the first sender thread of
`using_message_passing_to_transfer_data_between_threads` is spawned (its site
is in `spawnSites`) but its `JoinHandle` is discarded, so if it panics the
parent never joins it and the process is not aborted — contradicting the
claim that every spawned thread's panic is handled by aborting the process. -/
theorem detached_sender_panic_unhandled :
    txSenderSite ∈ spawnSites ∧
      onChildPanic txSenderSite = ParentOutcome.unaffected := by
  constructor
  · decide
  · rfl

/-- C3 amended: for every spawn site whose `JoinHandle` is joined with
`.join().expect(msg)`, a panic of the child is handled by aborting the whole
process with that fixed diagnostic message; the two sender threads of the
channel demonstration are never joined, so their panics are not handled. -/
theorem joined_thread_panic_aborts :
    (∀ s ∈ spawnSites, ∀ msg, s.joinExpectMsg = some msg →
      onChildPanic s = ParentOutcome.abortProcess msg) ∧
    (∀ s ∈ spawnSites, s.joinExpectMsg = none →
      onChildPanic s = ParentOutcome.unaffected) := by
  constructor
  · intro s _ msg h
    simp [onChildPanic, h]
  · intro s _ h
    simp [onChildPanic, h]

/-- Witness for `joined_thread_panic_aborts` at the first spawn site. -/
theorem joined_thread_panic_aborts_w :
    onChildPanic ⟨"using_threads_to_run_code_simultaneously",
        some "First thread crashed"⟩ =
      ParentOutcome.abortProcess "First thread crashed" :=
  joined_thread_panic_aborts.1 _ (by decide) _ rfl

/-- C4: for every channel send site in the program, if the send fails because
the receiver has been dropped, the sending thread panics via `.expect` with
the site's fixed message — the semantics has no recovering or retrying
branch, the only non-panic outcome is a delivered send. -/
theorem send_failure_panics_thread :
    ∀ s ∈ sendSites, sendResult false s = SendOutcome.threadPanic s.expectMsg ∧
      ∀ b : Bool, sendResult b s = SendOutcome.delivered ∨
        sendResult b s = SendOutcome.threadPanic s.expectMsg := by
  intro s _
  constructor
  · rfl
  · intro b
    cases b
    · exact Or.inr rfl
    · exact Or.inl rfl

/-- Witness for `send_failure_panics_thread` at the `tx` send site. -/
theorem send_failure_panics_thread_w :
    sendResult false ⟨"using_message_passing_to_transfer_data_between_threads",
        "Failed to send"⟩ = SendOutcome.threadPanic "Failed to send" :=
  (send_failure_panics_thread
    ⟨"using_message_passing_to_transfer_data_between_threads", "Failed to send"⟩
    (by decide)).1

/-- C5: every mutex access in `shared_state_concurrency` acquires the lock for
that single access and releases it at scope exit: the main thread's trace and
each worker's trace satisfy the scoped-guard discipline (never acquiring a
lock the same thread already holds — so no later acquisition deadlocks on a
lock still held by the same thread — releasing only held locks, and holding
nothing at the end); in particular the inner-block lock on `m` is released
before the `println!("m: {:?}", m)` (event index 2) and before the final
`shared.lock()` (event index 3): the main thread holds no lock at either
point. -/
theorem locks_scoped_and_no_self_deadlock :
    lockOk [] mainLockTrace = true ∧
    lockOk [] workerLockTrace = true ∧
    heldAfter mainLockTrace 2 = [] ∧
    heldAfter mainLockTrace 3 = [] := by decide

/-- C6: in `shared_state_concurrency` the integer mutex is created holding 5,
exactly one update — `*value += 1` under the lock — is applied to it, and the
value it holds when printed afterwards is 6. -/
theorem integer_mutex_five_plus_one :
    mInitVal = 5 ∧ mUpdates.length = 1 ∧ mFinalVal = 6 :=
  ⟨rfl, rfl, rfl⟩

/-- C7: in `using_threads_to_run_code_simultaneously`, each of the first and
second spawned threads prints exactly the indices 0 through 9, in increasing
order (`List.range 10`), and every print is immediately followed by the fixed
10-millisecond sleep. -/
theorem counted_loop_prints_zero_to_nine :
    printedIndices firstThreadEvents = List.range 10 ∧
    printedIndices secondThreadEvents = List.range 10 ∧
    sleepAfterEachPrint firstThreadEvents = true ∧
    sleepAfterEachPrint secondThreadEvents = true := by decide

/-- C8: there is no ordering guarantee between the two independently spawned
threads' console output: two distinct merged outputs are both legal
interleavings of the first and second threads' printed lines, so the
interleaving differs between some pair of executions. -/
theorem thread_output_interleaving_nondeterministic :
    ∃ out1 out2 : List String,
      Interleave (printedLines firstThreadEvents) (printedLines secondThreadEvents) out1 ∧
      Interleave (printedLines firstThreadEvents) (printedLines secondThreadEvents) out2 ∧
      out1 ≠ out2 := by
  refine ⟨printedLines firstThreadEvents ++ printedLines secondThreadEvents,
      printedLines secondThreadEvents ++ printedLines firstThreadEvents, ?_, ?_, ?_⟩
  · simpa using Interleave.append_left_all (printedLines firstThreadEvents)
      (Interleave.nil_left (printedLines secondThreadEvents))
  · simpa using Interleave.append_right_all (printedLines secondThreadEvents)
      (Interleave.nil_right (printedLines firstThreadEvents))
  · decide

/-- C9: in `using_message_passing_to_transfer_data_between_threads`, whatever
the interleaving, when the receive loop has exited the multiset of values it
printed is exactly {"hello", "channels", "are", "fun"} — each received exactly
once — and the three values sent on `tx1` appear in `received` in the
relative order "channels", "are", "fun". -/
theorem received_multiset_and_tx1_order :
    ∀ s : ChanState, ChanReachable s → s.done = true →
      s.received.Perm ["hello", "channels", "are", "fun"] ∧
      msgsB.Sublist s.received := by
  intro s hr hd
  obtain ⟨da, db, hA, hB, hI, hD⟩ := chanInv_reachable hr
  obtain ⟨hpa, hpb, hq⟩ := hD hd
  rw [hpa, List.append_nil] at hA
  rw [hpb, List.append_nil] at hB
  subst hA
  subst hB
  rw [hq, List.append_nil] at hI
  exact ⟨hI.perm, hI.sublist_right⟩

/-- Witness for `received_multiset_and_tx1_order` at a concrete complete
execution. -/
theorem received_multiset_and_tx1_order_w :
    List.Perm ["hello", "channels", "are", "fun"] ["hello", "channels", "are", "fun"] ∧
    List.Sublist msgsB ["hello", "channels", "are", "fun"] :=
  received_multiset_and_tx1_order ⟨[], [], [], ["hello", "channels", "are", "fun"], true⟩
    chanRun_reachable rfl

/-- C10: in `shared_state_concurrency` the workers only append to the shared
string: in every reachable state the string still begins with the initial
character '1', and once every worker has run the string's length is exactly
11 — the 1 initial character plus one appended character per worker. -/
theorem workers_only_append :
    ∀ s : PoolState, PoolReachable s →
      s.str.head? = some '1' ∧ (s.pending = [] → s.str.length = 11) := by
  intro s hr
  obtain ⟨ord, hperm, hstr⟩ := poolInv_reachable hr
  constructor
  · rw [hstr]
    rfl
  · intro hp
    rw [hp, List.append_nil] at hperm
    have hlen : ord.length = 10 := by simpa using hperm.length_eq
    rw [hstr]
    simp [hlen]

/-- Witness for `workers_only_append` at the complete execution running the
workers in index order. -/
theorem workers_only_append_w :
    (['1', 'a', 'b', 'c', 'd', 'e', 'f', 'g', 'h', 'i', 'j'] : List Char).head? = some '1' ∧
    (['1', 'a', 'b', 'c', 'd', 'e', 'f', 'g', 'h', 'i', 'j'] : List Char).length = 11 :=
  ⟨(workers_only_append _ poolRun_reachable).1,
   (workers_only_append _ poolRun_reachable).2 rfl⟩
